import Mathlib

/-!
Verification development for the `local-machine-network` repository.

The repository provides a single-machine IPC network: one process per
configured path becomes the leader (binds a listening socket after taking a
cross-process file lock), every other process becomes a follower that
connects to the leader.  Two layers:

* `LowLevelNetwork` (TypeScript source, `src/LowLevelNetwork.ts`):
  leader-election and reconnection engine built from `attemptConnectOrBind`,
  `attemptConnect`, `attemptBind`, `reconnect`, `stop`.
* `ObjectNetwork` / `ObjectSocket` (`src/object/ObjectNetwork.ts`):
  message layer on top, with a codec, length-prefixed packet framing and a
  `send` operation with leader-local loopback.

The definitions below are shallow embeddings of those functions; each is
annotated with the source location it was translated from.
-/

namespace LocalMachineNetwork

/-! ### Retry timing

Source (`LowLevelNetwork.ts`):
```
function randomRetryTime() {
    return Math.floor(30 + Math.random() * 100);
}
```
`Math.random()` returns a number `r` with `0 ≤ r < 1`.  We model the random
sample as a rational parameter and `Math.floor` as `Int.floor`. -/

def randomRetryTime (r : ℚ) : ℤ := ⌊(30 : ℚ) + r * 100⌋

/-! ### The bind attempt loop

Source (`LowLevelNetwork.ts`, `attemptBind(socketPath, attempt=0)`):

```
private attemptBind(socketPath: string, attempt=0): void {
    if(attempt > 10) {
        this[errorEvent].emit(new Error('Could not bind server socket, giving up after 10 tries'));
        return;
    }
    unlink(socketPath, unlinkErr => {
        if(unlinkErr && unlinkErr.code !== 'ENOENT') {
            setTimeout(() => this.attemptBind(socketPath, attempt + 1), retryTime);
            return;
        }
        const serverSocket = createServer();
        serverSocket.listen(socketPath, () => { ... this.leader = true; ... });
        serverSocket.on('error', err => {
            ...
            if(hadBound) { ... this.reconnect(...); }
            else { setTimeout(() => this.attemptBind(socketPath, attempt + 1), retryTime); }
        });
    });
}
```

One call of `attemptBind` with `attempt ≤ 10` performs one actual bind
attempt: an `unlink` of the stale socket path followed, unless the unlink
failed with a code other than `ENOENT`, by a `listen`.  Both failure paths
schedule `attemptBind(attempt + 1)`.  A call with `attempt > 10` performs
nothing and emits the fatal error. -/

/-- Result of the `unlink(socketPath, ...)` callback: success, failure with
code `ENOENT`, or failure with some other error code. -/
inductive UnlinkResult where
  | ok : UnlinkResult
  | enoent : UnlinkResult
  | err (code : String) : UnlinkResult
deriving DecidableEq

/-- Result of `serverSocket.listen`: either the listening callback fires
(bound) or the server emits an error before it was bound. -/
inductive ListenResult where
  | ok : ListenResult
  | errNotBound (code : String) : ListenResult
deriving DecidableEq

/-- Environment oracle for a run of the bind loop: what `unlink` and
`listen` do on the bind attempt with the given attempt index. -/
structure BindEnv where
  unlink : ℕ → UnlinkResult
  listen : ℕ → ListenResult

/-- Outcome of one call of `attemptBind socketPath attempt`. -/
inductive BindStepOutcome where
  /-- `attempt > 10`: emit the fatal error to `onError` and return. -/
  | fatalError : BindStepOutcome
  /-- `listen` succeeded: `leader := true`, `leaderEvent` and `readyEvent`
  are emitted. -/
  | leader : BindStepOutcome
  /-- the attempt failed (non-`ENOENT` unlink error, or `listen` error
  before binding): `setTimeout(() => attemptBind(socketPath, attempt+1))`. -/
  | retryScheduled (nextAttempt : ℕ) : BindStepOutcome
deriving DecidableEq

/-- One call of `attemptBind` with the given attempt counter, translated
from `LowLevelNetwork.ts` lines 285–353. -/
def attemptBindStep (env : BindEnv) (attempt : ℕ) : BindStepOutcome :=
  if attempt > 10 then
    BindStepOutcome.fatalError
  else
    match env.unlink attempt with
    | UnlinkResult.err _ => BindStepOutcome.retryScheduled (attempt + 1)
    | _ =>
      match env.listen attempt with
      | ListenResult.ok => BindStepOutcome.leader
      | ListenResult.errNotBound _ => BindStepOutcome.retryScheduled (attempt + 1)

/-- Final outcome of running the bind loop to completion. -/
inductive BindFinal where
  | fatalError : BindFinal
  | leader : BindFinal
deriving DecidableEq

/-- Run the bind loop from the given attempt counter, following every
scheduled retry, and count how many actual bind attempts (calls that reach
the `unlink`/`listen` work, i.e. calls with `attempt ≤ 10`) are performed.
Returns `(number of bind attempts performed, final outcome)`. -/
def attemptBindRun (env : BindEnv) (attempt : ℕ) : ℕ × BindFinal :=
  match h : attemptBindStep env attempt with
  | BindStepOutcome.fatalError => (0, BindFinal.fatalError)
  | BindStepOutcome.leader => (1, BindFinal.leader)
  | BindStepOutcome.retryScheduled _ =>
    let rest := attemptBindRun env (attempt + 1)
    (rest.1 + 1, rest.2)
termination_by 11 - attempt
decreasing_by
  by_cases hle : attempt > 10
  · simp [attemptBindStep, hle] at h
  · omega

/-- The environment in which every bind attempt fails: every unlink
succeeds and every `listen` errors before binding. -/
def envAllBindFail : BindEnv :=
  { unlink := fun _ => UnlinkResult.ok
    listen := fun _ => ListenResult.errNotBound "EADDRINUSE" }

/-- An environment whose unlink fails with `EACCES`, an error code other
than `ENOENT`. -/
def envUnlinkEacces : BindEnv :=
  { unlink := fun _ => UnlinkResult.err "EACCES"
    listen := fun _ => ListenResult.ok }

/-- C1.  If every bind attempt fails while the lock is held, the engine
performs exactly **11** bind attempts (attempt indices 0 through 10 each
run the unlink/listen work, since the guard is `attempt > 10` with the
initial call at `attempt = 0`) before emitting the fatal error, and it
does not retry after that: the call at index 11 performs no bind work and
only emits the error.  This contradicts both the spec and the code's own
error message `giving up after 10 tries`. -/
theorem bind_exhaustion_after_eleven_attempts :
    attemptBindRun envAllBindFail 0 = (11, BindFinal.fatalError) ∧
    attemptBindRun envAllBindFail 0 ≠ (10, BindFinal.fatalError) ∧
    attemptBindStep envAllBindFail 11 = BindStepOutcome.fatalError := by
  refine ⟨?_, ?_, rfl⟩
  · simp [attemptBindRun, attemptBindStep, envAllBindFail]
  · simp [attemptBindRun, attemptBindStep, envAllBindFail]

/-- C3 counterexample.  When unlinking the stale socket fails with
`EACCES` (an error other than `ENOENT`), `attemptBind` does not emit any
error and does not surface the failure: it silently schedules a retry of
the bind attempt with an incremented attempt counter, refuting the claim
that such a failure is fatal and surfaced immediately. -/
theorem unlink_error_silently_retried_counterexample :
    attemptBindStep envUnlinkEacces 0 = BindStepOutcome.retryScheduled 1 ∧
    attemptBindStep envUnlinkEacces 0 ≠ BindStepOutcome.fatalError := by
  exact ⟨rfl, by decide⟩

/-- C3 amended.  During a bind attempt (attempt counter at most 10), a
non-`ENOENT` unlink error causes the current bind attempt to fail and be
retried silently with backoff, incrementing the attempt counter (so it
counts toward bind exhaustion); it is not surfaced as an error.  An
`ENOENT` unlink error is ignored and binding proceeds: if `listen` then
succeeds the engine becomes leader. -/
theorem unlink_error_retried_with_backoff (env : BindEnv) (attempt : ℕ)
    (hle : attempt ≤ 10) :
    (∀ code, env.unlink attempt = UnlinkResult.err code →
      attemptBindStep env attempt = BindStepOutcome.retryScheduled (attempt + 1)) ∧
    (env.unlink attempt = UnlinkResult.enoent →
      env.listen attempt = ListenResult.ok →
      attemptBindStep env attempt = BindStepOutcome.leader) := by
  constructor
  · intro code hu
    simp [attemptBindStep, Nat.not_lt.mpr hle, hu]
  · intro hu hl
    simp [attemptBindStep, Nat.not_lt.mpr hle, hu, hl]

/-- Witness for `unlink_error_retried_with_backoff` at a concrete
environment and attempt index. -/
theorem unlink_error_retried_with_backoff_witness :
    (0 : ℕ) ≤ 10 ∧
    ((∀ code, envUnlinkEacces.unlink 0 = UnlinkResult.err code →
      attemptBindStep envUnlinkEacces 0 = BindStepOutcome.retryScheduled 1) ∧
    (envUnlinkEacces.unlink 0 = UnlinkResult.enoent →
      envUnlinkEacces.listen 0 = ListenResult.ok →
      attemptBindStep envUnlinkEacces 0 = BindStepOutcome.leader)) :=
  ⟨by decide, unlink_error_retried_with_backoff envUnlinkEacces 0 (by decide)⟩

/-! ### `stop()`, `reconnect()`, pending timers and in-flight election steps

Source (`LowLevelNetwork.ts`):

```
public start(): Promise<void> {
    this.started = true;
    return new Promise((resolve, reject) => {
        ...
        this.attemptConnectOrBind();
    });
}

private reconnect(message: string) {
    if(! this.started) return;
    const retryTime = randomRetryTime();
    setTimeout(() => this.attemptConnectOrBind(), retryTime);
}

private attemptConnectOrBind(): void {
    const socketPath = toSocketPath(this.options.path);
    this.leader = false;
    lock(this.options.path, { ... })
        .then((release) => { this[releaseLock] = release; this.attemptBind(socketPath); })
        .catch(() => { this.attemptConnect(socketPath); });
}

public stop(): Promise<void> {
    this.started = false;
    ... close server socket / destroy client socket / release lock ...
}
```

`stop()` flips `started` to `false` and closes the owned socket; it holds
no `setTimeout` handle and no reference to the in-flight `lock(...)`
promise, so it can cancel neither.  `reconnect` checks `started` *before
scheduling* a new timer, but nothing downstream checks it again:
`attemptConnectOrBind` (the retry-timer callback) always initiates the
asynchronous `lock(...)` call; the promise's `.then`/`.catch`
continuation runs `attemptBind` or `attemptConnect` whenever it settles,
even after a stop; and `attemptBind`'s failure paths schedule
`setTimeout(() => attemptBind(socketPath, attempt + 1))` with no
`started` check either.  We model the engine as a step function over the
`started` flag and the list of pending asynchronous continuations,
recording the side effects of each step; election rounds are *not*
atomic — initiating the lock call and its settling are separate steps,
so a `stop()` can land in between. -/

/-- C9.  For every value `r` of the underlying random source (with
`0 ≤ r < 1`, the contract of `Math.random()`), the retry delay
`Math.floor(30 + r * 100)` is an integer in the interval `[30, 130]`
(in fact in `[30, 129]`); in particular it is never zero, so a zero-delay
busy retry never occurs. -/
theorem randomRetryTime_in_range (r : ℚ) (h0 : 0 ≤ r) (h1 : r < 1) :
    30 ≤ randomRetryTime r ∧ randomRetryTime r ≤ 130 ∧ randomRetryTime r ≠ 0 := by
  have h30 : (30 : ℤ) ≤ ⌊(30 : ℚ) + r * 100⌋ := by
    rw [Int.le_floor]
    push_cast
    nlinarith
  have h130 : ⌊(30 : ℚ) + r * 100⌋ < 130 := by
    rw [Int.floor_lt]
    push_cast
    nlinarith
  refine ⟨h30, ?_, ?_⟩ <;> simp only [randomRetryTime] <;> omega

/-- Witness for `randomRetryTime_in_range` at the concrete random sample
`r = 1/2`. -/
theorem randomRetryTime_in_range_witness :
    (0 : ℚ) ≤ 1/2 ∧ (1/2 : ℚ) < 1 ∧
    (30 ≤ randomRetryTime (1/2) ∧ randomRetryTime (1/2) ≤ 130 ∧
      randomRetryTime (1/2) ≠ 0) :=
  ⟨by norm_num, by norm_num,
    randomRetryTime_in_range (1/2) (by norm_num) (by norm_num)⟩

/-! ### Packet framing

`ObjectNetwork.ts` imports `PacketDecodingStream` and `encodePacket` from
`./packets`, a file of this repository that is not part of the available
sources.  The definitions in this section are therefore modelled from the
spec (§4.4 PacketFramer, §6 wire format): a 4-byte big-endian unsigned
length prefixed to the payload on encode; a stateful chunk-size-agnostic
decoder whose state is exactly an accumulating buffer plus the number of
payload bytes still needed for the frame in progress (0 meaning "expect a
new length next").  Bytes are modelled as natural numbers below 256. -/

/-- Modelled from the spec: the 4-byte big-endian encoding of a `uint32`
length, as written by the missing `packets.ts` encoder. -/
def toBE32 (n : ℕ) : List ℕ :=
  [n / 2 ^ 24 % 256, n / 2 ^ 16 % 256, n / 2 ^ 8 % 256, n % 256]

/-- Modelled from the spec: reading a 4-byte big-endian unsigned length
from the first four bytes of a buffer. -/
def fromBE32 (l : List ℕ) : ℕ :=
  ((l.getD 0 0 * 256 + l.getD 1 0) * 256 + l.getD 2 0) * 256 + l.getD 3 0

/-- Modelled from the spec: `encodePacket` of the missing `packets.ts` —
given a payload of N bytes, emit a 4-byte big-endian length followed by
the N payload bytes. -/
def encodePacket (payload : List ℕ) : List ℕ :=
  toBE32 payload.length ++ payload

/-- Modelled from the spec: the decoding loop of the missing
`PacketDecodingStream`.  Given the accumulated buffer and the number of
payload bytes still needed for the frame in progress (`0` = expecting a
length next), emit every completed frame and return the residual
buffer/needed state.  Each emitted frame consumes at least its 4 length
bytes, so the buffer shrinks on every recursive call. -/
def runDecode (buf : List ℕ) (needed : ℕ) : List (List ℕ) × List ℕ × ℕ :=
  if _hz : needed = 0 then
    if _h4 : 4 ≤ buf.length then
      let len := fromBE32 buf
      let rest := buf.drop 4
      if _hl : len ≤ rest.length then
        let r := runDecode (rest.drop len) 0
        (rest.take len :: r.1, r.2)
      else
        ([], rest, len)
    else
      ([], buf, 0)
  else
    if _hn : needed ≤ buf.length then
      let r := runDecode (buf.drop needed) 0
      (buf.take needed :: r.1, r.2)
    else
      ([], buf, needed)
termination_by buf.length
decreasing_by
  · simp only [List.length_drop]
    omega
  · simp only [List.length_drop]
    omega

/-- Modelled from the spec: the state of the missing
`PacketDecodingStream` — an accumulating buffer plus how many payload
bytes are still needed for the frame in progress. -/
structure PacketDecodingStream where
  buffer : List ℕ
  needed : ℕ
deriving DecidableEq

/-- The freshly constructed decoder: empty buffer, expecting a length. -/
def PacketDecodingStream.initial : PacketDecodingStream := ⟨[], 0⟩

/-- Modelled from the spec: delivering one chunk of bytes to the decoder.
The chunk is appended to the buffer and every now-completed frame is
emitted, in order. -/
def PacketDecodingStream.feed (s : PacketDecodingStream) (chunk : List ℕ) :
    List (List ℕ) × PacketDecodingStream :=
  let r := runDecode (s.buffer ++ chunk) s.needed
  (r.1, ⟨r.2.1, r.2.2⟩)

/-- Deliver a sequence of chunks to the decoder, collecting all emitted
frames in order. -/
def PacketDecodingStream.feedAll (s : PacketDecodingStream) :
    List (List ℕ) → List (List ℕ) × PacketDecodingStream
  | [] => ([], s)
  | c :: cs =>
    let r := s.feed c
    let rr := r.2.feedAll cs
    (r.1 ++ rr.1, rr.2)

/-- Unfolding: a buffer shorter than a length header makes no progress. -/
theorem runDecode_short (buf : List ℕ) (h : buf.length < 4) :
    runDecode buf 0 = ([], buf, 0) := by
  rw [runDecode]
  simp [Nat.not_le.mpr h]

/-- Unfolding: with a full header and a full payload available, the frame
is emitted and decoding continues on the remainder. -/
theorem runDecode_frame (buf : List ℕ) (h4 : 4 ≤ buf.length)
    (hl : fromBE32 buf ≤ (buf.drop 4).length) :
    runDecode buf 0 =
      ((buf.drop 4).take (fromBE32 buf) ::
          (runDecode ((buf.drop 4).drop (fromBE32 buf)) 0).1,
        (runDecode ((buf.drop 4).drop (fromBE32 buf)) 0).2) := by
  rw [runDecode]
  have hl2 : fromBE32 buf ≤ buf.length - 4 := by simpa using hl
  simp [h4, hl2]

/-- Unfolding: with a full header but an incomplete payload, the header is
consumed and the decoder waits for the missing payload bytes. -/
theorem runDecode_headerOnly (buf : List ℕ) (h4 : 4 ≤ buf.length)
    (hl : ¬ fromBE32 buf ≤ (buf.drop 4).length) :
    runDecode buf 0 = ([], buf.drop 4, fromBE32 buf) := by
  rw [runDecode]
  have hl2 : buf.length - 4 < fromBE32 buf := by
    rw [List.length_drop] at hl
    omega
  simp [h4, hl2]

/-- Unfolding: mid-frame with the full payload now available, the frame is
emitted and decoding continues. -/
theorem runDecode_emit (buf : List ℕ) (needed : ℕ) (h0 : needed ≠ 0)
    (hn : needed ≤ buf.length) :
    runDecode buf needed =
      (buf.take needed :: (runDecode (buf.drop needed) 0).1,
        (runDecode (buf.drop needed) 0).2) := by
  rw [runDecode]
  simp [h0, hn]

/-- Unfolding: mid-frame with payload bytes still missing, no progress. -/
theorem runDecode_wait (buf : List ℕ) (needed : ℕ) (h0 : needed ≠ 0)
    (hn : ¬ needed ≤ buf.length) :
    runDecode buf needed = ([], buf, needed) := by
  rw [runDecode]
  simp [h0, hn]

/-- Helper: the big-endian length read only looks at the first four bytes,
so appending bytes to a buffer that already holds a full header does not
change the length it reads. -/
theorem fromBE32_append (buf extra : List ℕ) (h : 4 ≤ buf.length) :
    fromBE32 (buf ++ extra) = fromBE32 buf := by
  unfold fromBE32
  rw [List.getD_append _ _ _ _ (by omega), List.getD_append _ _ _ _ (by omega),
    List.getD_append _ _ _ _ (by omega), List.getD_append _ _ _ _ (by omega)]

/-- Helper: reading back the four bytes written by `toBE32` recovers the
encoded length, for lengths below `2^32`. -/
theorem fromBE32_toBE32 (n : ℕ) (h : n < 2 ^ 32) (t : List ℕ) :
    fromBE32 (toBE32 n ++ t) = n := by
  simp only [toBE32, fromBE32, List.cons_append, List.nil_append, List.getD_cons_zero,
    List.getD_cons_succ]
  omega

/-- Helper: chunk-size agnosticity.  Feeding `buf ++ extra` to the decoder
emits the frames `buf` alone already allowed, followed by whatever the
residual state allows once `extra` is appended. -/
theorem runDecode_append (N : ℕ) : ∀ (buf : List ℕ) (needed : ℕ) (extra : List ℕ),
    buf.length ≤ N →
    runDecode (buf ++ extra) needed =
      ((runDecode buf needed).1 ++
          (runDecode ((runDecode buf needed).2.1 ++ extra)
            (runDecode buf needed).2.2).1,
        (runDecode ((runDecode buf needed).2.1 ++ extra)
          (runDecode buf needed).2.2).2) := by
  induction N with
  | zero =>
    intro buf needed extra hlen
    have hb : buf = [] := List.eq_nil_of_length_eq_zero (Nat.le_zero.mp hlen)
    subst hb
    by_cases hz : needed = 0
    · subst hz
      rw [runDecode_short [] (by simp)]
      simp
    · rw [runDecode_wait [] needed hz (by simpa using hz)]
      simp
  | succ n ih =>
    intro buf needed extra hlen
    by_cases hz : needed = 0
    · subst hz
      by_cases h4 : 4 ≤ buf.length
      · have h4e : 4 ≤ (buf ++ extra).length := by simp; omega
        have hfrom : fromBE32 (buf ++ extra) = fromBE32 buf := fromBE32_append buf extra h4
        have hdrop : (buf ++ extra).drop 4 = buf.drop 4 ++ extra :=
          List.drop_append_of_le_length h4
        by_cases hl : fromBE32 buf ≤ (buf.drop 4).length
        · -- a full frame is already contained in `buf`
          have hl2 : fromBE32 buf ≤ buf.length - 4 := by simpa using hl
          have hle : fromBE32 (buf ++ extra) ≤ ((buf ++ extra).drop 4).length := by
            rw [hfrom, hdrop]
            simp only [List.length_append, List.length_drop]
            omega
          rw [runDecode_frame (buf ++ extra) h4e hle, runDecode_frame buf h4 hl]
          rw [hfrom, hdrop,
            List.take_append_of_le_length hl, List.drop_append_of_le_length hl]
          have hrec : ((buf.drop 4).drop (fromBE32 buf)).length ≤ n := by
            simp only [List.length_drop]
            omega
          rw [ih ((buf.drop 4).drop (fromBE32 buf)) 0 extra hrec]
          simp
        · -- header complete in `buf`, payload not yet
          rw [runDecode_headerOnly buf h4 hl]
          have hne : fromBE32 buf ≠ 0 := by
            intro h0
            exact hl (by simp [h0])
          by_cases hl2 : fromBE32 buf ≤ (buf.drop 4 ++ extra).length
          · have hle : fromBE32 (buf ++ extra) ≤ ((buf ++ extra).drop 4).length := by
              rw [hfrom, hdrop]
              exact hl2
            rw [runDecode_frame (buf ++ extra) h4e hle, hfrom, hdrop]
            rw [runDecode_emit (buf.drop 4 ++ extra) (fromBE32 buf) hne hl2]
            simp
          · have hle : ¬ fromBE32 (buf ++ extra) ≤ ((buf ++ extra).drop 4).length := by
              rw [hfrom, hdrop]
              exact hl2
            rw [runDecode_headerOnly (buf ++ extra) h4e hle, hfrom, hdrop]
            rw [runDecode_wait (buf.drop 4 ++ extra) (fromBE32 buf) hne hl2]
            simp
      · -- no full header in `buf`
        rw [runDecode_short buf (by omega)]
        simp
    · by_cases hn : needed ≤ buf.length
      · have hne : needed ≤ (buf ++ extra).length := by simp; omega
        rw [runDecode_emit (buf ++ extra) needed hz hne, runDecode_emit buf needed hz hn]
        rw [List.take_append_of_le_length hn, List.drop_append_of_le_length hn]
        have hrec : (buf.drop needed).length ≤ n := by
          simp only [List.length_drop]
          omega
        rw [ih (buf.drop needed) 0 extra hrec]
        simp
      · rw [runDecode_wait buf needed hz hn]
        simp

/-- Helper: the state returned by the decoding loop is quiescent — running
the loop again on it makes no further progress (everything that could be
emitted has been emitted). -/
theorem runDecode_quiescent (N : ℕ) : ∀ (buf : List ℕ) (needed : ℕ),
    buf.length ≤ N →
    runDecode (runDecode buf needed).2.1 (runDecode buf needed).2.2 =
      ([], (runDecode buf needed).2.1, (runDecode buf needed).2.2) := by
  induction N with
  | zero =>
    intro buf needed hlen
    have hb : buf = [] := List.eq_nil_of_length_eq_zero (Nat.le_zero.mp hlen)
    subst hb
    by_cases hz : needed = 0
    · subst hz
      rw [runDecode_short [] (by simp)]
      exact runDecode_short [] (by simp)
    · rw [runDecode_wait [] needed hz (by simpa using hz)]
      exact runDecode_wait [] needed hz (by simpa using hz)
  | succ n ih =>
    intro buf needed hlen
    by_cases hz : needed = 0
    · subst hz
      by_cases h4 : 4 ≤ buf.length
      · by_cases hl : fromBE32 buf ≤ (buf.drop 4).length
        · rw [runDecode_frame buf h4 hl]
          have hrec : ((buf.drop 4).drop (fromBE32 buf)).length ≤ n := by
            simp only [List.length_drop]
            omega
          exact ih ((buf.drop 4).drop (fromBE32 buf)) 0 hrec
        · rw [runDecode_headerOnly buf h4 hl]
          have hne : fromBE32 buf ≠ 0 := by
            intro h0
            exact hl (by simp [h0])
          exact runDecode_wait (buf.drop 4) (fromBE32 buf) hne hl
      · rw [runDecode_short buf (by omega)]
        exact runDecode_short buf (by omega)
    · by_cases hn : needed ≤ buf.length
      · rw [runDecode_emit buf needed hz hn]
        have hrec : (buf.drop needed).length ≤ n := by
          simp only [List.length_drop]
          omega
        exact ih (buf.drop needed) 0 hrec
      · rw [runDecode_wait buf needed hz hn]
        exact runDecode_wait buf needed hz hn

/-- Helper: decoding a stream that starts with one encoded packet emits
exactly that payload and continues on the remainder of the stream. -/
theorem runDecode_encodePacket (p rest : List ℕ) (hp : p.length < 2 ^ 32) :
    runDecode (encodePacket p ++ rest) 0 =
      (p :: (runDecode rest 0).1, (runDecode rest 0).2) := by
  have hbuf : encodePacket p ++ rest = toBE32 p.length ++ (p ++ rest) := by
    simp [encodePacket]
  have h4 : 4 ≤ (toBE32 p.length ++ (p ++ rest)).length := by
    simp [toBE32]
  have hfrom : fromBE32 (toBE32 p.length ++ (p ++ rest)) = p.length :=
    fromBE32_toBE32 p.length hp (p ++ rest)
  have hdrop : (toBE32 p.length ++ (p ++ rest)).drop 4 = p ++ rest := by
    simp [toBE32]
  have hl : fromBE32 (toBE32 p.length ++ (p ++ rest)) ≤
      ((toBE32 p.length ++ (p ++ rest)).drop 4).length := by
    rw [hfrom, hdrop]
    simp
  rw [hbuf, runDecode_frame _ h4 hl, hfrom, hdrop, List.take_left, List.drop_left]

/-- Helper: decoding the concatenation of the encodings of a list of
payloads (all shorter than `2^32`) emits exactly those payloads, in
order, and ends in the initial state. -/
theorem runDecode_stream (Ps : List (List ℕ)) (h : ∀ p ∈ Ps, p.length < 2 ^ 32) :
    runDecode (Ps.map encodePacket).flatten 0 = (Ps, [], 0) := by
  induction Ps with
  | nil =>
    exact runDecode_short [] (by simp)
  | cons p Ps ih =>
    have hp : p.length < 2 ^ 32 := h p (List.mem_cons_self p Ps)
    have hPs : ∀ q ∈ Ps, q.length < 2 ^ 32 := fun q hq => h q (List.mem_cons_of_mem p hq)
    have : ((p :: Ps).map encodePacket).flatten = encodePacket p ++ (Ps.map encodePacket).flatten := by
      simp
    rw [this, runDecode_encodePacket p _ hp, ih hPs]

/-- Helper: feeding chunks one at a time is the same as processing the
concatenation of the buffered bytes with all chunks at once, provided the
starting state is quiescent. -/
theorem feedAll_eq_runDecode (cs : List (List ℕ)) :
    ∀ s : PacketDecodingStream,
    runDecode s.buffer s.needed = ([], s.buffer, s.needed) →
    s.feedAll cs =
      ((runDecode (s.buffer ++ cs.flatten) s.needed).1,
        ⟨(runDecode (s.buffer ++ cs.flatten) s.needed).2.1,
          (runDecode (s.buffer ++ cs.flatten) s.needed).2.2⟩) := by
  induction cs with
  | nil =>
    intro s hq
    simp only [PacketDecodingStream.feedAll, List.flatten_nil, List.append_nil, hq]
  | cons c cs ih =>
    intro s hq
    have happ := runDecode_append (s.buffer ++ c).length (s.buffer ++ c) s.needed
      cs.flatten le_rfl
    have hqnext := runDecode_quiescent (s.buffer ++ c).length (s.buffer ++ c)
      s.needed le_rfl
    have hstep := ih ⟨(runDecode (s.buffer ++ c) s.needed).2.1,
      (runDecode (s.buffer ++ c) s.needed).2.2⟩ hqnext
    simp only [PacketDecodingStream.feedAll, PacketDecodingStream.feed] at *
    rw [hstep]
    have hflat : s.buffer ++ (c :: cs).flatten = (s.buffer ++ c) ++ cs.flatten := by
      simp
    rw [hflat, happ]

/-- C8.  Frame round-trip through the streaming decoder: for any list of
payloads (each shorter than `2^32` bytes, the capacity of the length
field) and **any** way of splitting the concatenation of their encodings
into delivery chunks — including splits inside a length header and
multiple frames per chunk — feeding the chunks to a fresh
`PacketDecodingStream` emits exactly those payloads, each exactly once,
in arrival order, and leaves the decoder back in its initial state. -/
theorem packet_frame_roundtrip (Ps chunks : List (List ℕ))
    (hsplit : chunks.flatten = (Ps.map encodePacket).flatten)
    (hlen : ∀ p ∈ Ps, p.length < 2 ^ 32) :
    PacketDecodingStream.initial.feedAll chunks = (Ps, PacketDecodingStream.initial) := by
  have hq : runDecode PacketDecodingStream.initial.buffer PacketDecodingStream.initial.needed =
      ([], PacketDecodingStream.initial.buffer, PacketDecodingStream.initial.needed) :=
    runDecode_short [] (by simp)
  rw [feedAll_eq_runDecode chunks PacketDecodingStream.initial hq]
  simp [PacketDecodingStream.initial, hsplit, runDecode_stream Ps hlen]

/-- Witness for `packet_frame_roundtrip`: the two payloads `[7]` and
`[1, 2, 3]`, with the encoded stream delivered in chunks that split one
length header and pack a frame boundary into the middle of a chunk. -/
theorem packet_frame_roundtrip_witness :
    ([[0, 0], [0, 1, 7, 0, 0, 0], [3, 1, 2], [3]].flatten =
      (([[7], [1, 2, 3]] : List (List ℕ)).map encodePacket).flatten) ∧
    (∀ p ∈ ([[7], [1, 2, 3]] : List (List ℕ)), p.length < 2 ^ 32) ∧
    PacketDecodingStream.initial.feedAll [[0, 0], [0, 1, 7, 0, 0, 0], [3, 1, 2], [3]] =
      ([[7], [1, 2, 3]], PacketDecodingStream.initial) :=
  ⟨by decide, by decide,
    packet_frame_roundtrip [[7], [1, 2, 3]] [[0, 0], [0, 1, 7, 0, 0, 0], [3, 1, 2], [3]]
      (by decide) (by decide)⟩

/-! ### ObjectNetwork: send, loopback and the stored connection

Source (`src/object/ObjectNetwork.ts`):

```
public send(message: any) {
    if(this.lowLevel.leader) {
        this[messageEvent].emit({ returnPath: this, data: message });
    } else if(this.connection) {
        this.connection.send(message);
    } else {
        throw new Error('Unable to send message, not connected');
    }
}
```

and `ObjectSocket.send` (lines 283–292) writes
`encodePacket(codec.encode(message))` to the socket.  The `onLeader`
handler (lines 110–121) sets `this.connection = undefined`; the
`onConnect` handler (lines 148–162) stores a new `ObjectSocket` as
`this.connection`; `attemptConnectOrBind` resets `lowLevel.leader` to
`false` at the start of every election round, and the low-level network
emits `connect` only from `attemptConnect`, which runs in the
lock-failure branch of the same round, so `lowLevel.leader` is `false`
whenever the `connect` event fires. -/

/-- The `returnPath` of an `ObjectMessage`: either the `ObjectNetwork`
instance itself (`returnPath: this` in `send`'s loopback branch) or a
specific `ObjectSocket` connection wrapper. -/
inductive ReturnPath where
  | network : ReturnPath
  | connection (id : ℕ) : ReturnPath
deriving DecidableEq

/-- A message surfaced on a message event: the return path and the
decoded data. -/
structure ObjectMessage (α : Type) where
  returnPath : ReturnPath
  data : α
deriving DecidableEq

/-- The fields of `ObjectNetwork` that `send` reads: the low-level
network's `leader` flag and the stored outbound connection
(`this.connection`), identified by an id. -/
structure ObjectNetworkState where
  leader : Bool
  connection : Option ℕ
deriving DecidableEq

/-- What one call of `ObjectNetwork.send` does. -/
inductive SendResult (α : Type) where
  /-- the message is emitted synchronously on the local message event
  with `returnPath` the network instance itself; no socket is touched. -/
  | loopback (msg : ObjectMessage α) : SendResult α
  /-- the encoded, framed packet is written to the stored outbound
  connection. -/
  | socketWrite (conn : ℕ) (packet : List ℕ) : SendResult α
  /-- `throw new Error('Unable to send message, not connected')`. -/
  | sendFailure : SendResult α
deriving DecidableEq

/-- `ObjectNetwork.send`, translated from `ObjectNetwork.ts` lines
198–212, with `ObjectSocket.send`'s encode-and-frame inlined for the
connected branch. -/
def ObjectNetwork.send {α : Type} (encode : α → List ℕ)
    (s : ObjectNetworkState) (message : α) : SendResult α :=
  if s.leader then
    SendResult.loopback ⟨ReturnPath.network, message⟩
  else
    match s.connection with
    | some c => SendResult.socketWrite c (encodePacket (encode message))
    | none => SendResult.sendFailure

/-- C6.  While the instance holds the leader role, `send` delivers the
message synchronously to the local message subscribers as an
`ObjectMessage` whose `returnPath` is the network instance itself, and no
socket write occurs. -/
theorem send_leader_loopback {α : Type} (encode : α → List ℕ)
    (s : ObjectNetworkState) (m : α) (h : s.leader = true) :
    ObjectNetwork.send encode s m = SendResult.loopback ⟨ReturnPath.network, m⟩ ∧
    ∀ c packet, ObjectNetwork.send encode s m ≠ SendResult.socketWrite c packet := by
  refine ⟨?_, ?_⟩
  · simp [ObjectNetwork.send, h]
  · intro c packet
    simp [ObjectNetwork.send, h]

/-- Witness for `send_leader_loopback` at a concrete leader state and
message. -/
theorem send_leader_loopback_witness :
    ObjectNetwork.send (fun n : ℕ => [n]) ⟨true, none⟩ 5 =
      SendResult.loopback ⟨ReturnPath.network, 5⟩ ∧
    ∀ c packet, ObjectNetwork.send (fun n : ℕ => [n]) ⟨true, none⟩ 5 ≠
      SendResult.socketWrite c packet :=
  send_leader_loopback (fun n : ℕ => [n]) ⟨true, none⟩ 5 rfl

/-- C7.  `send` raises the immediate `not connected` error exactly when
the instance neither holds the leader role nor has a stored outbound
connection; in every other state the call either loops back or writes
once — there is no retry path in the function. -/
theorem send_fails_iff_not_connected {α : Type} (encode : α → List ℕ)
    (s : ObjectNetworkState) (m : α) :
    ObjectNetwork.send encode s m = SendResult.sendFailure ↔
      s.leader = false ∧ s.connection = none := by
  cases s with
  | mk leader connection =>
    cases leader <;> cases connection <;> simp [ObjectNetwork.send]

/-! ### Event handlers of `ObjectNetwork` and the leader/connection invariant -/

/-- The events relevant to the `leader` flag and the stored connection,
as wired in the `ObjectNetwork` constructor. -/
inductive ONEvent where
  /-- `attemptConnectOrBind` starting an election round:
  `this.leader = false` in `LowLevelNetwork`. -/
  | electReset : ONEvent
  /-- the low-level network binds as leader (`this.leader = true`) and
  `onLeader` fires: the handler sets `this.connection = undefined`. -/
  | becomeLeader : ONEvent
  /-- the low-level network connects as follower and `onConnect` fires:
  the handler stores the new `ObjectSocket`. -/
  | connectLeader (c : ℕ) : ONEvent
  /-- an inbound connection is wrapped and surfaced on `onConnection`;
  neither `leader` nor `connection` changes. -/
  | inbound (c : ℕ) : ONEvent
deriving DecidableEq

/-- Effect of each event on the state read by `send`, translated from the
handlers in the `ObjectNetwork` constructor (lines 110–162) and from
`attemptConnectOrBind`. -/
def applyEvent (s : ObjectNetworkState) : ONEvent → ObjectNetworkState
  | ONEvent.electReset => { s with leader := false }
  | ONEvent.becomeLeader => { leader := true, connection := none }
  | ONEvent.connectLeader c => { s with connection := some c }
  | ONEvent.inbound _ => s

/-- One event transition.  The `connectLeader` case carries the fact that
the low-level engine only emits `connect` while its `leader` flag is
`false` (the connect callback belongs to the lock-failure branch of an
election round, which starts by resetting the flag). -/
inductive ONStep : ObjectNetworkState → ObjectNetworkState → Prop where
  | electReset (s : ObjectNetworkState) :
      ONStep s (applyEvent s ONEvent.electReset)
  | becomeLeader (s : ObjectNetworkState) :
      ONStep s (applyEvent s ONEvent.becomeLeader)
  | connectLeader (s : ObjectNetworkState) (c : ℕ) (h : s.leader = false) :
      ONStep s (applyEvent s (ONEvent.connectLeader c))
  | inbound (s : ObjectNetworkState) (c : ℕ) :
      ONStep s (applyEvent s (ONEvent.inbound c))

/-- States reachable from the freshly constructed `ObjectNetwork`
(`leader = false`, no stored connection). -/
inductive ONReachable : ObjectNetworkState → Prop where
  | init : ONReachable ⟨false, none⟩
  | step {s t : ObjectNetworkState} :
      ONReachable s → ONStep s t → ONReachable t

/-- C10.  In every reachable state, holding the leader role implies the
stored outbound connection reference is `none` (the `onLeader` handler
cleared it); consequently `send` while leader always loops back locally
and never writes to a previously held follower socket. -/
theorem leader_clears_stored_connection (s : ObjectNetworkState)
    (h : ONReachable s) :
    (s.leader = true → s.connection = none) ∧
    (∀ (m : ℕ), s.leader = true →
      ObjectNetwork.send (fun n : ℕ => [n]) s m =
        SendResult.loopback ⟨ReturnPath.network, m⟩ ∧
      ∀ c packet, ObjectNetwork.send (fun n : ℕ => [n]) s m ≠
        SendResult.socketWrite c packet) := by
  constructor
  · induction h with
    | init => intro h; cases h
    | step hr hs ih =>
      cases hs with
      | electReset => intro h; simp [applyEvent] at h
      | becomeLeader => intro _; rfl
      | connectLeader c hl =>
        intro h
        simp only [applyEvent] at h
        rw [hl] at h
        cases h
      | inbound c => exact ih
  · intro m hl
    refine ⟨by simp [ObjectNetwork.send, hl], ?_⟩
    intro c packet
    simp [ObjectNetwork.send, hl]

/-- Witness for `leader_clears_stored_connection` at the state reached by
becoming leader right after construction. -/
theorem leader_clears_stored_connection_witness :
    (((⟨true, none⟩ : ObjectNetworkState).leader = true →
      (⟨true, none⟩ : ObjectNetworkState).connection = none) ∧
    (∀ (m : ℕ), (⟨true, none⟩ : ObjectNetworkState).leader = true →
      ObjectNetwork.send (fun n : ℕ => [n]) ⟨true, none⟩ m =
        SendResult.loopback ⟨ReturnPath.network, m⟩ ∧
      ∀ c packet, ObjectNetwork.send (fun n : ℕ => [n]) ⟨true, none⟩ m ≠
        SendResult.socketWrite c packet)) :=
  leader_clears_stored_connection ⟨true, none⟩
    (ONReachable.step ONReachable.init (ONStep.becomeLeader ⟨false, none⟩))

/-! ### The per-connection data handler and decode failures

Source (`ObjectNetwork.ts`, `ObjectSocket` constructor, lines 248–267):

```
const decoder = new PacketDecodingStream();
const pipe = control.socket.pipe(decoder);
decoder.on('data', data => {
    const msg = control.codec.decode(data);
    const message: ObjectMessage = { returnPath: this, data: msg };
    control.emitMessage(message);
    this[messageEvent].emit(message);
});
decoder.on('error', err => control.debug('Error from decoder', err));
pipe.on('error', err => control.debug('Error from pipe', err));
```

The call `control.codec.decode(data)` is not wrapped in a `try`/`catch`,
and the `error` listeners only receive stream errors, not exceptions
thrown by a `data` listener.  A decode failure therefore escapes the
handler as an uncaught exception: the messages decoded before it have
been emitted, and no later frame of that connection's stream is processed
by the handler in that run.  We model the handler over the list of frames
the decoder emits, with a codec whose `decode` may fail. -/

/-- Processing of decoded frames by the `data` handler of one
`ObjectSocket` (connection `conn`): each frame is decoded and emitted as
an `ObjectMessage` with `returnPath` that connection; the first decode
failure escapes uncaught, ending the run with that error and dropping
every later frame. -/
def deliverFrames {α : Type} (decode : List ℕ → Except String α) (conn : ℕ) :
    List (List ℕ) → List (ObjectMessage α) × Option String
  | [] => ([], none)
  | f :: rest =>
    match decode f with
    | Except.error e => ([], some e)
    | Except.ok v =>
      let r := deliverFrames decode conn rest
      (⟨ReturnPath.connection conn, v⟩ :: r.1, r.2)

/-- A concrete codec decode for counterexamples: only the frame `[0]` is
well-formed. -/
def decodeZero (f : List ℕ) : Except String ℕ :=
  if f = [0] then Except.ok 0 else Except.error "malformed"

/-- C4 counterexample.  On the frame sequence `[[1], [0]]` — a malformed
frame followed by a well-formed one — the handler delivers nothing at
all: the decode failure on the first frame is not caught, so the
subsequent well-formed frame `[0]` is never decoded or delivered,
refuting the claim that a decode failure is isolated to its frame. -/
theorem decode_failure_not_isolated_counterexample :
    decodeZero [0] = Except.ok 0 ∧
    deliverFrames decodeZero 1 [[1], [0]] = ([], some "malformed") := by
  exact ⟨rfl, rfl⟩

/-- C4 amended.  A decode failure is not caught by the per-frame handler:
frames decoded before the first malformed frame are delivered (in order,
with `returnPath` the connection), the error of the first malformed frame
escapes as the run's uncaught error, and no frame after it is delivered;
when every frame is well-formed, all frames are decoded and delivered in
order. -/
theorem decode_failure_aborts_handler {α : Type}
    (decode : List ℕ → Except String α) (conn : ℕ)
    (pre : List (List ℕ)) (bad : List ℕ) (rest : List (List ℕ)) (e : String)
    (hpre : ∀ f ∈ pre, ∃ v, decode f = Except.ok v)
    (hbad : decode bad = Except.error e) :
    (deliverFrames decode conn (pre ++ bad :: rest) =
      ((deliverFrames decode conn pre).1, some e)) ∧
    (∀ fs : List (List ℕ), (∀ f ∈ fs, ∃ v, decode f = Except.ok v) →
      (deliverFrames decode conn fs).2 = none ∧
      (deliverFrames decode conn fs).1.map
          (fun msg => (Except.ok msg.data : Except String α)) = fs.map decode ∧
      ∀ msg ∈ (deliverFrames decode conn fs).1,
        msg.returnPath = ReturnPath.connection conn) := by
  constructor
  · induction pre with
    | nil =>
      simp [deliverFrames, hbad]
    | cons f pre ih =>
      obtain ⟨v, hv⟩ := hpre f (List.mem_cons_self f pre)
      have ihp := ih (fun g hg => hpre g (List.mem_cons_of_mem f hg))
      simp only [List.cons_append, deliverFrames, hv, List.append_eq, ihp]
  · intro fs hfs
    induction fs with
    | nil => exact ⟨rfl, rfl, by simp [deliverFrames]⟩
    | cons f fs ih =>
      obtain ⟨v, hv⟩ := hfs f (List.mem_cons_self f fs)
      have ihp := ih (fun g hg => hfs g (List.mem_cons_of_mem f hg))
      refine ⟨?_, ?_, ?_⟩
      · simp only [deliverFrames, hv]
        exact ihp.1
      · simp only [deliverFrames, hv, List.map_cons]
        rw [ihp.2.1]
      · intro msg hmsg
        simp only [deliverFrames, hv, List.mem_cons] at hmsg
        rcases hmsg with h | h
        · rw [h]
        · exact ihp.2.2 msg h

/-- Witness for `decode_failure_aborts_handler` at a concrete frame
sequence: one good frame, one malformed frame, one trailing good frame. -/
theorem decode_failure_aborts_handler_witness :
    ((∀ f ∈ ([[0]] : List (List ℕ)), ∃ v, decodeZero f = Except.ok v) ∧
      decodeZero [1] = Except.error "malformed") ∧
    ((deliverFrames decodeZero 0 ([[0]] ++ [1] :: [[0]]) =
      ((deliverFrames decodeZero 0 [[0]]).1, some "malformed")) ∧
    (∀ fs : List (List ℕ), (∀ f ∈ fs, ∃ v, decodeZero f = Except.ok v) →
      (deliverFrames decodeZero 0 fs).2 = none ∧
      (deliverFrames decodeZero 0 fs).1.map
          (fun msg => (Except.ok msg.data : Except String ℕ)) = fs.map decodeZero ∧
      ∀ msg ∈ (deliverFrames decodeZero 0 fs).1,
        msg.returnPath = ReturnPath.connection 0)) :=
  ⟨⟨fun f hf => ⟨0, by rw [List.mem_singleton.mp hf]; rfl⟩, rfl⟩,
    decode_failure_aborts_handler decodeZero 0 [[0]] [1] [[0]] "malformed"
      (fun f hf => ⟨0, by rw [List.mem_singleton.mp hf]; rfl⟩) rfl⟩

/-! ### N engines against one path: single leader

Source: `attemptConnectOrBind` (`LowLevelNetwork.ts` lines 167–218).  Each
engine tries `lock(path)`: on success it keeps the lock handle and binds
(`attemptBind`); if binding succeeds it becomes leader, if binding fails
it retries with the lock retained.  On lock failure it dials the socket
(`attemptConnect`); the dial succeeds exactly when a leader has bound the
server socket at the path, making the engine a follower; otherwise it
stays electing and retries later.  Cross-process mutual exclusion is
provided by the `proper-lockfile` lock: at most one engine holds it and
acquisition fails while it is held.  We model `N` engines driven by an
arbitrary interleaving of election rounds (runs without stops,
disconnects or lock compromise, the scenario of the claim). -/

/-- Role of one engine. -/
inductive Role where
  | electing : Role
  | leader : Role
  | follower : Role
deriving DecidableEq

/-- Global state of `n` engines against one path: who holds the
cross-process lock, and each engine's role. -/
structure GState (n : ℕ) where
  lockOwner : Option (Fin n)
  roles : Fin n → Role

/-- All engines start electing; the lock is free. -/
def initState (n : ℕ) : GState n :=
  ⟨none, fun _ => Role.electing⟩

/-- One election round of engine `i`, translated from
`attemptConnectOrBind`/`attemptBind`/`attemptConnect`.  `bindOk` is the
oracle for whether the `listen` of this round succeeds.  An engine that
is no longer electing does not run election rounds.  Connecting succeeds
exactly when some engine has bound as leader. -/
def electStep {n : ℕ} (s : GState n) (i : Fin n) (bindOk : Bool) : GState n :=
  if s.roles i = Role.electing then
    match s.lockOwner with
    | none =>
      -- lock acquired; attemptBind with the fresh lock handle
      if bindOk then ⟨some i, Function.update s.roles i Role.leader⟩
      else ⟨some i, s.roles⟩
    | some j =>
      if j = i then
        -- this engine already holds the lock from an earlier failed bind;
        -- attemptBind retries with the retained handle
        if bindOk then ⟨some i, Function.update s.roles i Role.leader⟩ else s
      else
        -- lock held elsewhere: attemptConnect
        if ∃ k, s.roles k = Role.leader then
          ⟨s.lockOwner, Function.update s.roles i Role.follower⟩
        else s
  else s

/-- Run a sequence of election rounds. -/
def execList {n : ℕ} (s : GState n) : List (Fin n × Bool) → GState n
  | [] => s
  | (i, b) :: rest => execList (electStep s i b) rest

/-- Engine `i` holds the leader role at some point of the run. -/
def everLeader {n : ℕ} (inputs : List (Fin n × Bool)) (i : Fin n) : Prop :=
  ∃ m, (execList (initState n) (inputs.take m)).roles i = Role.leader

/-- Helper: an engine that is leader stays leader across any election
round (no step of this model demotes a leader). -/
theorem electStep_leader_persists {n : ℕ} (s : GState n) (i : Fin n) (b : Bool)
    (k : Fin n) (hk : s.roles k = Role.leader) :
    (electStep s i b).roles k = Role.leader := by
  by_cases hi : s.roles i = Role.electing
  · have hki : k ≠ i := by
      intro h
      rw [h, hi] at hk
      cases hk
    cases hlock : s.lockOwner with
    | none =>
      cases b <;> simp [electStep, hi, hlock, Function.update_noteq hki, hk]
    | some j =>
      by_cases hj : j = i
      · cases b <;> simp [electStep, hi, hlock, hj, Function.update_noteq hki, hk]
      · by_cases hex : ∃ m, s.roles m = Role.leader
        · simp [electStep, hi, hlock, hj, hex, Function.update_noteq hki, hk]
        · simp [electStep, hi, hlock, hj, hex, hk]
  · simp [electStep, hi, hk]

/-- Helper: every leader holds the lock, and this is preserved by every
election round. -/
theorem electStep_inv {n : ℕ} (s : GState n) (i : Fin n) (b : Bool)
    (h : ∀ k, s.roles k = Role.leader → s.lockOwner = some k) :
    ∀ k, (electStep s i b).roles k = Role.leader →
      (electStep s i b).lockOwner = some k := by
  intro k
  by_cases hi : s.roles i = Role.electing
  · cases hlock : s.lockOwner with
    | none =>
      cases b with
      | true =>
        simp only [electStep, hi, hlock, ite_true, if_true]
        by_cases hki : k = i
        · subst hki
          intro _
          rfl
        · rw [Function.update_noteq hki]
          intro hk
          have h2 := h k hk
          rw [hlock] at h2
          cases h2
      | false =>
        simp only [electStep, hi, hlock, ite_true, Bool.false_eq_true, if_false]
        intro hk
        have h2 := h k hk
        rw [hlock] at h2
        cases h2
    | some j =>
      by_cases hj : j = i
      · cases b with
        | true =>
          simp only [electStep, hi, hlock, hj, ite_true, if_true]
          by_cases hki : k = i
          · subst hki
            intro _
            rfl
          · rw [Function.update_noteq hki]
            intro hk
            have h2 := h k hk
            rw [hlock] at h2
            injection h2 with h3
            exact absurd (h3.symm.trans hj) hki
        | false =>
          simp only [electStep, hi, hlock, hj, ite_true, Bool.false_eq_true, if_false]
          intro hk
          have h2 := h k hk
          rw [hlock, hj] at h2
          exact h2
      · by_cases hex : ∃ m, s.roles m = Role.leader
        · simp only [electStep, hi, hlock, if_neg hj, if_pos hex, ite_true]
          by_cases hki : k = i
          · subst hki
            rw [Function.update_same]
            intro hk
            cases hk
          · rw [Function.update_noteq hki]
            intro hk
            have h2 := h k hk
            rw [hlock] at h2
            exact h2
        · simp only [electStep, hi, hlock, if_neg hj, if_neg hex, ite_true]
          intro hk
          have h2 := h k hk
          rw [hlock] at h2
          exact h2
  · simp only [electStep, if_neg hi]
    intro hk
    exact h k hk

/-- Helper: running a concatenation of rounds is running them in turn. -/
theorem execList_append {n : ℕ} (l₁ l₂ : List (Fin n × Bool)) :
    ∀ s : GState n, execList s (l₁ ++ l₂) = execList (execList s l₁) l₂ := by
  induction l₁ with
  | nil => intro s; rfl
  | cons p rest ih =>
    intro s
    cases p with
    | mk i b => exact ih (electStep s i b)

/-- Helper: leadership persists along any run. -/
theorem execList_leader_persists {n : ℕ} (l : List (Fin n × Bool)) :
    ∀ (s : GState n) (k : Fin n), s.roles k = Role.leader →
      (execList s l).roles k = Role.leader := by
  induction l with
  | nil => intro s k hk; exact hk
  | cons p rest ih =>
    intro s k hk
    cases p with
    | mk i b => exact ih (electStep s i b) k (electStep_leader_persists s i b k hk)

/-- Helper: the leader-holds-the-lock invariant holds along any run. -/
theorem execList_inv {n : ℕ} (l : List (Fin n × Bool)) :
    ∀ s : GState n, (∀ k, s.roles k = Role.leader → s.lockOwner = some k) →
      ∀ k, (execList s l).roles k = Role.leader →
        (execList s l).lockOwner = some k := by
  induction l with
  | nil => intro s h; exact h
  | cons p rest ih =>
    intro s h
    cases p with
    | mk i b => exact ih (electStep s i b) (electStep_inv s i b h)

/-- Helper: the invariant holds in every state reachable from the initial
state. -/
theorem execList_init_inv {n : ℕ} (l : List (Fin n × Bool)) :
    ∀ k, (execList (initState n) l).roles k = Role.leader →
      (execList (initState n) l).lockOwner = some k := by
  refine execList_inv l (initState n) ?_
  intro k hk
  simp [initState] at hk

/-- C5.  Single leader.  In any interleaved run of `n` engines against
one path (no stops or disconnects): (1) at most one engine ever enters
the leader role — any two engines that are ever leader are equal; (2) an
engine still electing converges to follower in its next election round
once a leader is bound (the dial to the leader's socket succeeds); and
(3) an electing engine whose lock acquisition finds the lock free and
whose bind succeeds becomes leader, so some engine does become leader. -/
theorem single_leader_election {n : ℕ} :
    (∀ (inputs : List (Fin n × Bool)) (i j : Fin n),
      everLeader inputs i → everLeader inputs j → i = j) ∧
    (∀ (l : List (Fin n × Bool)) (i : Fin n) (b : Bool),
      (execList (initState n) l).roles i = Role.electing →
      (∃ k, (execList (initState n) l).roles k = Role.leader) →
      (electStep (execList (initState n) l) i b).roles i = Role.follower) ∧
    (∀ i : Fin n, (electStep (initState n) i true).roles i = Role.leader) := by
  refine ⟨?_, ?_, ?_⟩
  · intro inputs i j hi hj
    obtain ⟨mi, hmi⟩ := hi
    obtain ⟨mj, hmj⟩ := hj
    -- push both to the later of the two prefixes using persistence
    rcases le_total mi mj with hle | hle
    · have hsplit : inputs.take mj = inputs.take mi ++ (inputs.take mj).drop mi := by
        conv_lhs => rw [← List.take_append_drop mi (inputs.take mj)]
        rw [List.take_take, min_eq_left hle]
      have hi2 : (execList (initState n) (inputs.take mj)).roles i = Role.leader := by
        rw [hsplit, execList_append]
        exact execList_leader_persists _ _ i hmi
      have h1 := execList_init_inv (n := n) (inputs.take mj) i hi2
      have h2 := execList_init_inv (n := n) (inputs.take mj) j hmj
      rw [h1] at h2
      injection h2
    · have hsplit : inputs.take mi = inputs.take mj ++ (inputs.take mi).drop mj := by
        conv_lhs => rw [← List.take_append_drop mj (inputs.take mi)]
        rw [List.take_take, min_eq_left hle]
      have hj2 : (execList (initState n) (inputs.take mi)).roles j = Role.leader := by
        rw [hsplit, execList_append]
        exact execList_leader_persists _ _ j hmj
      have h1 := execList_init_inv (n := n) (inputs.take mi) i hmi
      have h2 := execList_init_inv (n := n) (inputs.take mi) j hj2
      rw [h1] at h2
      injection h2
  · intro l i b hi hex
    obtain ⟨k, hk⟩ := hex
    have hlock := execList_init_inv (n := n) l k hk
    have hki : k ≠ i := by
      intro h
      rw [h, hi] at hk
      cases hk
    have hex2 : ∃ m, (execList (initState n) l).roles m = Role.leader := ⟨k, hk⟩
    simp [electStep, hi, hlock, hki, hex2, Function.update_same]
  · intro i
    simp [electStep, initState, Function.update_same]

/-- Witness for `single_leader_election` with two engines: engine 0 takes
the free lock and binds, engine 1 then converges to follower; uniqueness
applied to the run in which engine 0 is the only leader. -/
theorem single_leader_election_witness :
    ((0 : Fin 2) = 0) ∧
    (electStep (execList (initState 2) [((0 : Fin 2), true)]) 1 false).roles 1 =
      Role.follower ∧
    (electStep (initState 2) (0 : Fin 2) true).roles 0 = Role.leader :=
  ⟨(single_leader_election (n := 2)).1 [((0 : Fin 2), true)] 0 0
      ⟨1, by decide⟩ ⟨1, by decide⟩,
    (single_leader_election (n := 2)).2.1 [((0 : Fin 2), true)] 1 false
      (by decide) ⟨0, by decide⟩,
    (single_leader_election (n := 2)).2.2 0⟩

end LocalMachineNetwork
